import Mathlib

/-!
Verification development for the `rr` HTTP/1.x client engine.

The Rust sources are shallowly embedded at the byte level: a byte is a
`Nat` (values 0-255 in practice), a byte buffer (`Vec<u8>`, `&[u8]`, the
bytes of a `String`) is a `List Nat`, and fallible functions return
`Except Error _` mirroring `error.rs`.  Rust strings that only flow into
error messages stay Lean `String`s.

Modelling conventions, used throughout and noted per definition:
* ASCII-level fidelity: `String::from_utf8_lossy` followed by `char`
  operations (`lines`, `split_whitespace`, `trim`, `to_lowercase`,
  `split(';')`) is modelled directly on the bytes; on ASCII data this is
  byte-for-byte what the Rust does.
* `usize` / `u16` arithmetic that cannot overflow on the inputs of
  interest is modelled on `Nat` (divergence only beyond `usize::MAX`).
-/

/-- Error taxonomy, embedded from `src/error.rs` (`enum Error`).  Each
constructor carries the formatted message string.  The `Io` variant's
`io::Error` payload is reduced to its display string. -/
inductive Error : Type where
  | IoError (msg : String)
  | UrlParse (msg : String)
  | HttpParse (msg : String)
  | Tls (msg : String)
  | Connection (msg : String)
  | Timeout (msg : String)
  | Proxy (msg : String)
  | Http (status : Nat) (message : String)
  | Other (msg : String)
  | Response (msg : String)
  | Decompression (msg : String)
  deriving DecidableEq

deriving instance DecidableEq for Except

/-- Bytes of an ASCII Lean string literal (code points; for the ASCII
literals used here these coincide with the UTF-8 bytes the Rust code
writes). -/
def strBytes (s : String) : List Nat :=
  s.toList.map Char.toNat

/-- ASCII rendering of a byte buffer, modelling `String::from_utf8_lossy`
restricted to the ASCII range: bytes `< 128` map to themselves, others to
U+FFFD.  (Exact for the ASCII data reaching it in the theorems below.) -/
def lossyAscii (l : List Nat) : String :=
  String.mk (l.map (fun b => if b < 128 then Char.ofNat b else '�'))

/-- ASCII lower-casing of bytes, modelling `str::to_lowercase` (which on
ASCII input lower-cases exactly the bytes 65-90). -/
def lowerBytes (l : List Nat) : List Nat :=
  l.map (fun b => if 65 ≤ b ∧ b ≤ 90 then b + 32 else b)

/-- ASCII whitespace, the restriction of Rust `char::is_whitespace` to
the byte range. -/
def isWsB (b : Nat) : Bool :=
  b = 9 || b = 10 || b = 11 || b = 12 || b = 13 || b = 32

/-- `str::trim` on a byte buffer (ASCII whitespace). -/
def trimBytes (l : List Nat) : List Nat :=
  ((l.dropWhile isWsB).reverse.dropWhile isWsB).reverse

/-- First index of the window `\r\n`, modelling
`windows(2).position(|w| w == b"\r\n")` from `src/chunked.rs`. -/
def findCRLF : List Nat → Option Nat
  | [] => none
  | [_] => none
  | a :: b :: rest =>
    if a = 13 ∧ b = 10 then some 0
    else (findCRLF (b :: rest)).map (· + 1)

/-- First index of the window `\r\n\r\n`, modelling
`windows(4).position(|w| w == b"\r\n\r\n")` from `src/response.rs` and the
`contains("\r\n\r\n")` checks of the connection layer. -/
def findHeaderEnd : List Nat → Option Nat
  | a :: b :: c :: d :: rest =>
    if a = 13 ∧ b = 10 ∧ c = 13 ∧ d = 10 then some 0
    else (findHeaderEnd (b :: c :: d :: rest)).map (· + 1)
  | _ => none

/-- Value of an ASCII hex digit, as accepted by
`usize::from_str_radix(_, 16)`. -/
def hexDigitVal (b : Nat) : Option Nat :=
  if 48 ≤ b ∧ b ≤ 57 then some (b - 48)
  else if 97 ≤ b ∧ b ≤ 102 then some (b - 87)
  else if 65 ≤ b ∧ b ≤ 70 then some (b - 55)
  else none

/-- `usize::from_str_radix(s, 16)` on a byte buffer: an optional leading
`+`, then a non-empty run of hex digits.  (Modelled on `Nat`; diverges
from the Rust only by lacking the `usize::MAX` overflow bound.) -/
def fromHexBytes (l : List Nat) : Option Nat :=
  let l2 := if l.headD 0 = 43 then l.tail else l
  if l2 = [] then none
  else l2.foldl (fun o b => o.bind fun a => (hexDigitVal b).map fun d => 16 * a + d) (some 0)

/-- Chunk-size parsing from `src/chunked.rs`: take the size line up to the
first `;` (discarding chunk extensions), trim it, and read it as hex. -/
def parseChunkSize (sizeLine : List Nat) : Option Nat :=
  fromHexBytes (trimBytes (sizeLine.takeWhile (fun b => b != 59)))

/-- Bound used for termination: a `\r\n` window found at `i` needs bytes
`i` and `i+1` to exist. -/
theorem findCRLF_bound : ∀ (l : List Nat) (i : Nat), findCRLF l = some i → i + 2 ≤ l.length := by
  intro l
  induction l with
  | nil => intro i h; simp [findCRLF] at h
  | cons a t ih =>
    intro i h
    cases t with
    | nil => simp [findCRLF] at h
    | cons b r =>
      rw [findCRLF] at h
      split at h
      · cases h; simp
      · rw [Option.map_eq_some'] at h
        obtain ⟨j, hj, hji⟩ := h
        have := ih j hj
        simp only [List.length_cons] at *
        omega

/-- `ChunkedParser::skip_trailer_headers` from `src/chunked.rs`: discard
trailer header lines until an empty line. -/
def skipTrailerHeaders (data : List Nat) : Except Error Unit :=
  match h : findCRLF data with
  | none => .error (.Response "Invalid trailer format")
  | some 0 => .ok ()
  | some (j + 1) => skipTrailerHeaders (data.drop (j + 1 + 2))
termination_by data.length
decreasing_by
  have hb := findCRLF_bound data (j + 1) h
  simp only [List.length_drop]
  omega

/-- `ChunkedParser::parse` from `src/chunked.rs`, the chunked-transfer
decoder: repeatedly read a `\r\n`-terminated hex size line (extensions
after `;` ignored), then consume that many payload bytes plus the two
trailing bytes; a zero size ends the body after the trailer headers. -/
def chunkedParse (data : List Nat) : Except Error (List Nat) :=
  match h : findCRLF data with
  | none => .error (.Response "Invalid chunked format: no CRLF found")
  | some i =>
    match parseChunkSize (data.take i) with
    | none => .error (.Response ("Invalid chunk size: " ++ lossyAscii (data.take i)))
    | some 0 => (skipTrailerHeaders (data.drop (i + 2))).map (fun _ => [])
    | some (n + 1) =>
      let rem := data.drop (i + 2)
      if rem.length < (n + 1) + 2 then
        .error (.Response ("Incomplete chunk data: expected " ++ toString ((n + 1) + 2) ++
          " bytes, got " ++ toString rem.length))
      else
        (chunkedParse (rem.drop ((n + 1) + 2))).map (fun rest => rem.take (n + 1) ++ rest)
termination_by data.length
decreasing_by
  have hb := findCRLF_bound data i h
  simp only [List.length_drop]
  omega

/-! ### Hex rendering (specification-side encoder for the round-trip) -/

/-- Lower-case hex digit byte for a value `< 16`. -/
def hexChar (d : Nat) : Nat :=
  if d < 10 then 48 + d else 87 + d

/-- Fuel-driven hex rendering of a number, most significant digit first. -/
def hexDigitsAux : Nat → Nat → List Nat
  | 0, _ => []
  | f + 1, n => if n < 16 then [hexChar n] else hexDigitsAux f (n / 16) ++ [hexChar (n % 16)]

/-- Hex rendering of a number (the fuel `n + 1` always suffices). -/
def hexDigits (n : Nat) : List Nat :=
  hexDigitsAux (n + 1) n

theorem hexDigitVal_hexChar (d : Nat) (hd : d < 16) : hexDigitVal (hexChar d) = some d := by
  unfold hexChar hexDigitVal
  split_ifs <;> simp_all <;> omega

theorem hexDigitsAux_mem : ∀ (f n b : Nat), b ∈ hexDigitsAux f n →
    (48 ≤ b ∧ b ≤ 57) ∨ (97 ≤ b ∧ b ≤ 102) := by
  intro f
  induction f with
  | zero => intro n b hb; simp [hexDigitsAux] at hb
  | succ f ih =>
    intro n b hb
    rw [hexDigitsAux] at hb
    split at hb
    · simp at hb
      subst hb
      unfold hexChar
      split_ifs <;> omega
    · rw [List.mem_append] at hb
      rcases hb with hb | hb
      · exact ih _ b hb
      · simp at hb
        subst hb
        have : n % 16 < 16 := Nat.mod_lt _ (by omega)
        unfold hexChar
        split_ifs <;> omega

theorem hexDigitsAux_ne_nil (f n : Nat) (h : n < f) : hexDigitsAux f n ≠ [] := by
  cases f with
  | zero => omega
  | succ f =>
    rw [hexDigitsAux]
    split <;> simp

theorem foldHex_hexDigitsAux (f : Nat) : ∀ n, n < f → ∀ acc : Nat,
    (hexDigitsAux f n).foldl (fun o b => o.bind fun a => (hexDigitVal b).map fun d => 16 * a + d)
      (some acc) = some (acc * 16 ^ (hexDigitsAux f n).length + n) := by
  induction f with
  | zero => intro n h; omega
  | succ f ih =>
    intro n hn acc
    rw [hexDigitsAux]
    split
    · next hlt =>
      simp only [List.foldl_cons, List.foldl_nil]
      rw [show (some acc).bind (fun a => (hexDigitVal (hexChar n)).map fun d => 16 * a + d) =
        (hexDigitVal (hexChar n)).map (fun d => 16 * acc + d) from rfl]
      rw [hexDigitVal_hexChar n hlt]
      simp [pow_one]
      omega
    · next hge =>
      have h16 : 16 ≤ n := by omega
      have hdiv : n / 16 < f := by
        have h1 : n / 16 < n := Nat.div_lt_self (by omega) (by omega)
        omega
      rw [List.foldl_append]
      rw [ih (n / 16) hdiv acc]
      have hmod : n % 16 < 16 := Nat.mod_lt _ (by omega)
      simp only [List.foldl_cons, List.foldl_nil]
      rw [show (some (acc * 16 ^ (hexDigitsAux f (n / 16)).length + n / 16)).bind
        (fun a => (hexDigitVal (hexChar (n % 16))).map fun d => 16 * a + d) =
        (hexDigitVal (hexChar (n % 16))).map
          fun d => 16 * (acc * 16 ^ (hexDigitsAux f (n / 16)).length + n / 16) + d from rfl]
      rw [hexDigitVal_hexChar _ hmod]
      simp only [Option.map_some', List.length_append, List.length_cons, List.length_nil,
        Nat.zero_add]
      congr 1
      have hdm : 16 * (n / 16) + n % 16 = n := Nat.div_add_mod n 16
      calc 16 * (acc * 16 ^ (hexDigitsAux f (n / 16)).length + n / 16) + n % 16
          = acc * (16 ^ (hexDigitsAux f (n / 16)).length * 16) + (16 * (n / 16) + n % 16) := by
            ring
        _ = acc * 16 ^ ((hexDigitsAux f (n / 16)).length + 1) + n := by
            rw [hdm, pow_succ]

theorem hexDigits_mem (n b : Nat) (hb : b ∈ hexDigits n) :
    (48 ≤ b ∧ b ≤ 57) ∨ (97 ≤ b ∧ b ≤ 102) :=
  hexDigitsAux_mem _ _ b hb

theorem fromHexBytes_hexDigits (n : Nat) : fromHexBytes (hexDigits n) = some n := by
  unfold fromHexBytes
  cases hW : hexDigits n with
  | nil => exact absurd hW (hexDigitsAux_ne_nil _ _ (Nat.lt_succ_self n))
  | cons h t =>
    have hmem := hexDigits_mem n h (hW ▸ List.mem_cons_self h t)
    have h43 : ¬ ((h :: t).headD 0 = 43) := by simp; omega
    simp only [hW, if_neg h43, if_neg (by simp : ¬ (h :: t = []))]
    have hfold := foldHex_hexDigitsAux (n + 1) n (Nat.lt_succ_self n) 0
    rw [hexDigits] at hW
    rw [hW] at hfold
    rw [hfold]
    simp

/-! ### List helper lemmas -/

theorem dropWhile_eq_self_of {p : Nat → Bool} {l : List Nat} (h : ∀ b ∈ l, p b = false) :
    l.dropWhile p = l := by
  cases l with
  | nil => rfl
  | cons a t => simp [List.dropWhile_cons, h a (by simp)]

theorem trimBytes_eq_self {l : List Nat} (h : ∀ b ∈ l, isWsB b = false) : trimBytes l = l := by
  unfold trimBytes
  rw [dropWhile_eq_self_of h]
  rw [dropWhile_eq_self_of (fun b hb => h b (List.mem_reverse.mp hb))]
  exact List.reverse_reverse l

theorem takeWhile_eq_self_of {p : Nat → Bool} : ∀ {l : List Nat}, (∀ b ∈ l, p b = true) →
    l.takeWhile p = l := by
  intro l
  induction l with
  | nil => intro _; rfl
  | cons a t ih =>
    intro h
    rw [List.takeWhile_cons, if_pos (h a (by simp))]
    rw [ih (fun b hb => h b (List.mem_cons_of_mem a hb))]

theorem takeWhile_append_stop {p : Nat → Bool} {x : Nat} (hx : p x = false) :
    ∀ {l : List Nat}, (∀ b ∈ l, p b = true) → ∀ rest : List Nat,
    (l ++ x :: rest).takeWhile p = l := by
  intro l
  induction l with
  | nil => intro _ rest; simp [List.takeWhile_cons, hx]
  | cons a t ih =>
    intro h rest
    rw [List.cons_append, List.takeWhile_cons, if_pos (h a (by simp))]
    rw [ih (fun b hb => h b (List.mem_cons_of_mem a hb)) rest]

theorem findCRLF_append (pre suf : List Nat) (h : 13 ∉ pre) :
    findCRLF (pre ++ 13 :: 10 :: suf) = some pre.length := by
  induction pre with
  | nil => simp [findCRLF]
  | cons a t ih =>
    have ha : ¬ (a = 13) := fun e => h (by simp [e])
    have ht : 13 ∉ t := fun hm => h (List.mem_cons_of_mem a hm)
    cases t with
    | nil =>
      show findCRLF (a :: 13 :: 10 :: suf) = some 1
      rw [findCRLF, if_neg (by omega)]
      simp [findCRLF]
    | cons b r =>
      have hstep := ih ht
      rw [List.cons_append] at hstep
      rw [List.cons_append, List.cons_append]
      rw [findCRLF, if_neg (fun hc => ha hc.1), hstep]
      simp

/-! ### Evaluation lemmas for the chunked decoder -/

theorem chunkedParse_no_crlf (data : List Nat) (hf : findCRLF data = none) :
    chunkedParse data = .error (.Response "Invalid chunked format: no CRLF found") := by
  rw [chunkedParse.eq_def]
  split
  · rfl
  · next i heq => rw [hf] at heq; cases heq

theorem chunkedParse_bad_size (data : List Nat) (i : Nat) (hf : findCRLF data = some i)
    (hp : parseChunkSize (data.take i) = none) :
    chunkedParse data = .error (.Response ("Invalid chunk size: " ++ lossyAscii (data.take i))) := by
  rw [chunkedParse.eq_def]
  split
  · next heq => rw [hf] at heq; cases heq
  · next i2 heq =>
    rw [hf] at heq
    injection heq with hi
    subst hi
    split
    · rfl
    · next heq2 => rw [hp] at heq2; cases heq2
    · next n heq2 => rw [hp] at heq2; cases heq2

theorem chunkedParse_zero (data : List Nat) (i : Nat) (hf : findCRLF data = some i)
    (hp : parseChunkSize (data.take i) = some 0) :
    chunkedParse data = (skipTrailerHeaders (data.drop (i + 2))).map (fun _ => []) := by
  rw [chunkedParse.eq_def]
  split
  · next heq => rw [hf] at heq; cases heq
  · next i2 heq =>
    rw [hf] at heq
    injection heq with hi
    subst hi
    split
    · next heq2 => rw [hp] at heq2; cases heq2
    · rfl
    · next n heq2 => rw [hp] at heq2; cases heq2

theorem chunkedParse_incomplete (data : List Nat) (i n : Nat) (hf : findCRLF data = some i)
    (hp : parseChunkSize (data.take i) = some (n + 1))
    (hlen : (data.drop (i + 2)).length < (n + 1) + 2) :
    chunkedParse data = .error (.Response ("Incomplete chunk data: expected " ++
      toString ((n + 1) + 2) ++ " bytes, got " ++ toString (data.drop (i + 2)).length)) := by
  rw [chunkedParse.eq_def]
  split
  · next heq => rw [hf] at heq; cases heq
  · next i2 heq =>
    rw [hf] at heq
    injection heq with hi
    subst hi
    split
    · next heq2 => rw [hp] at heq2; cases heq2
    · next heq2 => rw [hp] at heq2; cases heq2
    · next n2 heq2 =>
      rw [hp] at heq2
      injection heq2 with hn
      injection hn with hn2
      subst hn2
      simp only [if_pos hlen]

theorem chunkedParse_step (data : List Nat) (i n : Nat) (hf : findCRLF data = some i)
    (hp : parseChunkSize (data.take i) = some (n + 1))
    (hlen : ¬ (data.drop (i + 2)).length < (n + 1) + 2) :
    chunkedParse data = (chunkedParse ((data.drop (i + 2)).drop ((n + 1) + 2))).map
      (fun rest => (data.drop (i + 2)).take (n + 1) ++ rest) := by
  rw [chunkedParse.eq_def]
  split
  · next heq => rw [hf] at heq; cases heq
  · next i2 heq =>
    rw [hf] at heq
    injection heq with hi
    subst hi
    split
    · next heq2 => rw [hp] at heq2; cases heq2
    · next heq2 => rw [hp] at heq2; cases heq2
    · next n2 heq2 =>
      rw [hp] at heq2
      injection heq2 with hn
      injection hn with hn2
      subst hn2
      simp only [if_neg hlen]

theorem skipTrailerHeaders_empty_line (data : List Nat) (hf : findCRLF data = some 0) :
    skipTrailerHeaders data = .ok () := by
  rw [skipTrailerHeaders.eq_def]
  split
  · next heq => rw [hf] at heq; cases heq
  · rfl
  · next j heq => rw [hf] at heq; cases heq

/-! ### Chunked round-trip -/

theorem parseChunkSize_hexDigits (n : Nat) : parseChunkSize (hexDigits n) = some n := by
  unfold parseChunkSize
  rw [takeWhile_eq_self_of (fun b hb => by
    have := hexDigits_mem n b hb; simp [bne]; omega)]
  rw [trimBytes_eq_self (fun b hb => by
    have := hexDigits_mem n b hb; simp [isWsB]; omega)]
  exact fromHexBytes_hexDigits n

theorem parseChunkSize_hexDigits_ext (n : Nat) (e : List Nat) :
    parseChunkSize (hexDigits n ++ 59 :: e) = some n := by
  unfold parseChunkSize
  rw [takeWhile_append_stop (by simp) (fun b hb => by
    have := hexDigits_mem n b hb; simp [bne]; omega) e]
  rw [trimBytes_eq_self (fun b hb => by
    have := hexDigits_mem n b hb; simp [isWsB]; omega)]
  exact fromHexBytes_hexDigits n

/-- Extension rendering: nothing, or `;` followed by the extension bytes. -/
def extBytes : Option (List Nat) → List Nat
  | none => []
  | some e => 59 :: e

/-- Specification-side chunked-transfer encoder: each chunk is framed as a
hex size line (optionally followed by `;` and an extension), `\r\n`, the
payload, `\r\n`; the stream ends with the terminal `0\r\n\r\n`. -/
def encodeChunked : List (List Nat × Option (List Nat)) → List Nat
  | [] => [48, 13, 10, 13, 10]
  | (c, ext) :: t =>
    (hexDigits c.length ++ extBytes ext) ++ 13 :: 10 :: (c ++ 13 :: 10 :: encodeChunked t)

theorem parseChunkSize_hexDigits_extBytes (n : Nat) (ext : Option (List Nat)) :
    parseChunkSize (hexDigits n ++ extBytes ext) = some n := by
  cases ext with
  | none => rw [extBytes, List.append_nil]; exact parseChunkSize_hexDigits n
  | some e => rw [extBytes]; exact parseChunkSize_hexDigits_ext n e

/-- Round-trip: decoding an encoded chunk stream yields the concatenated
payloads, for non-empty chunks whose extensions contain no CR byte. -/
theorem chunkedParse_encodeChunked :
    ∀ (chunks : List (List Nat × Option (List Nat))),
    (∀ p ∈ chunks, p.1 ≠ []) →
    (∀ p ∈ chunks, 13 ∉ p.2.getD []) →
    chunkedParse (encodeChunked chunks) = .ok (chunks.map Prod.fst).flatten := by
  intro chunks
  induction chunks with
  | nil =>
    intro _ _
    have hf : findCRLF [48, 13, 10, 13, 10] = some 1 := by decide
    have hp : parseChunkSize ([48, 13, 10, 13, 10].take 1) = some 0 := by decide
    rw [encodeChunked, chunkedParse_zero _ 1 hf hp]
    rw [skipTrailerHeaders_empty_line _ (by decide)]
    rfl
  | cons p t ih =>
    obtain ⟨c, ext⟩ := p
    intro h1 h2
    have hc : c ≠ [] := h1 (c, ext) (by simp)
    have h13 : 13 ∉ hexDigits c.length ++ extBytes ext := by
      intro hm
      rw [List.mem_append] at hm
      rcases hm with hm | hm
      · have := hexDigits_mem c.length 13 hm; omega
      · cases hext : ext with
        | none => rw [hext, extBytes] at hm; simp at hm
        | some e =>
          rw [hext, extBytes] at hm
          simp at hm
          have h2p := h2 (c, ext) (by simp)
          rw [show (c, ext).2 = some e from hext] at h2p
          exact h2p hm
    have henc : encodeChunked ((c, ext) :: t) =
        (hexDigits c.length ++ extBytes ext) ++ 13 :: 10 :: (c ++ 13 :: 10 :: encodeChunked t) :=
      rfl
    have hf : findCRLF (encodeChunked ((c, ext) :: t)) =
        some (hexDigits c.length ++ extBytes ext).length := by
      rw [henc]
      exact findCRLF_append _ _ h13
    have htake : (encodeChunked ((c, ext) :: t)).take (hexDigits c.length ++ extBytes ext).length =
        hexDigits c.length ++ extBytes ext := by
      rw [henc]
      exact List.take_left _ _
    obtain ⟨m, hm⟩ : ∃ m, c.length = m + 1 := by
      cases hcc : c with
      | nil => exact absurd hcc hc
      | cons x xs => exact ⟨xs.length, by simp⟩
    have hdrop : (encodeChunked ((c, ext) :: t)).drop
        ((hexDigits c.length ++ extBytes ext).length + 2) =
        c ++ 13 :: 10 :: encodeChunked t := by
      rw [henc]
      rw [show (hexDigits c.length ++ extBytes ext) ++
          13 :: 10 :: (c ++ 13 :: 10 :: encodeChunked t) =
          ((hexDigits c.length ++ extBytes ext) ++ [13, 10]) ++
            (c ++ 13 :: 10 :: encodeChunked t) by simp]
      rw [show (hexDigits c.length ++ extBytes ext).length + 2 =
          ((hexDigits c.length ++ extBytes ext) ++ [13, 10]).length by
        simp only [List.length_append, List.length_cons, List.length_nil]]
      exact List.drop_left _ _
    have hlen : ¬ ((encodeChunked ((c, ext) :: t)).drop
        ((hexDigits c.length ++ extBytes ext).length + 2)).length < (m + 1) + 2 := by
      rw [hdrop]
      simp only [List.length_append, List.length_cons]
      omega
    have hps : parseChunkSize ((encodeChunked ((c, ext) :: t)).take
        (hexDigits c.length ++ extBytes ext).length) = some (m + 1) := by
      rw [htake, parseChunkSize_hexDigits_extBytes, ← hm]
    have hstep := chunkedParse_step (encodeChunked ((c, ext) :: t))
      (hexDigits c.length ++ extBytes ext).length m hf hps hlen
    rw [hstep, hdrop]
    have htake2 : (c ++ 13 :: 10 :: encodeChunked t).take (m + 1) = c := by
      rw [← hm]
      exact List.take_left c _
    have hdrop2 : (c ++ 13 :: 10 :: encodeChunked t).drop ((m + 1) + 2) = encodeChunked t := by
      rw [show c ++ 13 :: 10 :: encodeChunked t = (c ++ [13, 10]) ++ encodeChunked t by simp]
      rw [show (m + 1) + 2 = (c ++ [13, 10]).length by simp [hm]]
      exact List.drop_left _ _
    rw [htake2, hdrop2]
    rw [ih (fun q hq => h1 q (List.mem_cons_of_mem _ hq))
      (fun q hq => h2 q (List.mem_cons_of_mem _ hq))]
    simp [Except.map]

/-! ### UTF-8 validation and lossy decoding

Embeds the byte-level UTF-8 validation used by `String::from_utf8` and
`String::from_utf8_lossy` (Rust core's `run_utf8_validation` tables):
continuation bytes are `80..BF`, with the restricted second-byte ranges
for `E0`, `ED`, `F0`, `F4`; on error the maximal valid prefix of a
sequence is replaced by one U+FFFD (bytes `EF BF BD`).  Both functions are
fuel-driven (each step consumes at least one byte, so fuel `l.length`
always suffices) to keep them kernel-evaluable. -/

/-- UTF-8 continuation byte. -/
def isCont (b : Nat) : Bool :=
  decide (128 ≤ b ∧ b ≤ 191)

/-- Allowed second byte of a three-byte sequence starting with `b`. -/
def cond3 (b c : Nat) : Bool :=
  if b = 224 then decide (160 ≤ c ∧ c ≤ 191)
  else if b = 237 then decide (128 ≤ c ∧ c ≤ 159)
  else isCont c

/-- Allowed second byte of a four-byte sequence starting with `b`. -/
def cond4 (b c : Nat) : Bool :=
  if b = 240 then decide (144 ≤ c ∧ c ≤ 191)
  else if b = 244 then decide (128 ≤ c ∧ c ≤ 143)
  else isCont c

/-- Length (1-4) of the complete, valid UTF-8 sequence at the head of the
buffer, or `none` if the head does not start one. -/
def utf8SeqLen : List Nat → Option Nat
  | [] => none
  | b :: rest =>
    if b < 128 then some 1
    else if b < 194 then none
    else if b ≤ 223 then
      match rest with
      | c :: _ => if isCont c then some 2 else none
      | [] => none
    else if b ≤ 239 then
      match rest with
      | c :: d :: _ => if cond3 b c && isCont d then some 3 else none
      | _ => none
    else if b ≤ 244 then
      match rest with
      | c :: d :: e :: _ => if cond4 b c && isCont d && isCont e then some 4 else none
      | _ => none
    else none

/-- How many bytes an invalid/incomplete sequence at the head consumes
before the replacement character is emitted (the maximal valid prefix,
always at least 1). -/
def utf8ErrLen : List Nat → Nat
  | [] => 1
  | b :: rest =>
    if b ≤ 223 then 1
    else if b ≤ 239 then
      match rest with
      | c :: _ => if cond3 b c then 2 else 1
      | [] => 1
    else if b ≤ 244 then
      match rest with
      | c :: d :: _ => if cond4 b c then (if isCont d then 3 else 2) else 1
      | [c] => if cond4 b c then 2 else 1
      | [] => 1
    else 1

/-- Fuel-driven UTF-8 validation; with fuel `≥ l.length` this is exactly
whether `String::from_utf8` succeeds on the buffer. -/
def utf8ValidAux : Nat → List Nat → Bool
  | 0, l => l.isEmpty
  | _ + 1, [] => true
  | f + 1, b :: rest =>
    match utf8SeqLen (b :: rest) with
    | some n => utf8ValidAux f ((b :: rest).drop n)
    | none => false

/-- Whether a byte buffer is valid UTF-8 (`String::from_utf8` succeeds). -/
def utf8Valid (l : List Nat) : Bool :=
  utf8ValidAux l.length l

/-- Fuel-driven `String::from_utf8_lossy` at the byte level. -/
def utf8LossyAux : Nat → List Nat → List Nat
  | 0, _ => []
  | _ + 1, [] => []
  | f + 1, b :: rest =>
    match utf8SeqLen (b :: rest) with
    | some n => (b :: rest).take n ++ utf8LossyAux f ((b :: rest).drop n)
    | none => 239 :: 191 :: 189 :: utf8LossyAux f ((b :: rest).drop (utf8ErrLen (b :: rest)))

/-- `String::from_utf8_lossy` at the byte level. -/
def utf8Lossy (l : List Nat) : List Nat :=
  utf8LossyAux l.length l

theorem utf8LossyAux_of_validAux :
    ∀ (f : Nat) (l : List Nat), utf8ValidAux f l = true → utf8LossyAux f l = l := by
  intro f
  induction f with
  | zero =>
    intro l h
    cases l with
    | nil => rfl
    | cons b rest => simp [utf8ValidAux, List.isEmpty] at h
  | succ f ih =>
    intro l h
    cases l with
    | nil => rfl
    | cons b rest =>
      rw [utf8ValidAux] at h
      rw [utf8LossyAux]
      cases hseq : utf8SeqLen (b :: rest) with
      | none => rw [hseq] at h; cases h
      | some n =>
        rw [hseq] at h
        have h2 : utf8ValidAux f ((b :: rest).drop n) = true := h
        show (b :: rest).take n ++ utf8LossyAux f ((b :: rest).drop n) = b :: rest
        rw [ih _ h2]
        exact List.take_append_drop n (b :: rest)

/-- On valid UTF-8 input the lossy conversion is the identity. -/
theorem utf8Lossy_of_valid (l : List Nat) (hv : utf8Valid l = true) : utf8Lossy l = l :=
  utf8LossyAux_of_validAux l.length l hv

/-! ### Response parsing (`src/response.rs`) -/

/-- Split a byte buffer at every LF (`str::lines` step 1); always returns
at least one segment. -/
def splitNl : List Nat → List (List Nat)
  | [] => [[]]
  | 10 :: rest => [] :: splitNl rest
  | b :: rest =>
    match splitNl rest with
    | s :: ss => (b :: s) :: ss
    | [] => [[b]]

/-- Strip one trailing CR (`str::lines` strips `\r` before each `\n`). -/
def stripCR (l : List Nat) : List Nat :=
  if l.getLast? = some 13 then l.dropLast else l

/-- `str::lines` on a byte buffer: split at `\n`, strip a `\r` preceding
each `\n`, drop the final empty segment produced by a trailing newline
(and keep a trailing `\r` on an unterminated last line, as Rust does). -/
def linesOf (l : List Nat) : List (List Nat) :=
  let segs := splitNl l
  match segs.getLast? with
  | some [] => segs.dropLast.map stripCR
  | _ => segs.dropLast.map stripCR ++ [segs.getLastD []]

/-- `str::split_whitespace` on a byte buffer (ASCII whitespace): maximal
non-whitespace runs, no empty tokens. -/
def splitWsAux : List Nat → List Nat → List (List Nat)
  | [], cur => if cur.isEmpty then [] else [cur.reverse]
  | b :: rest, cur =>
    if isWsB b then
      if cur.isEmpty then splitWsAux rest [] else cur.reverse :: splitWsAux rest []
    else splitWsAux rest (b :: cur)

/-- `str::split_whitespace` on a byte buffer. -/
def splitWs (l : List Nat) : List (List Nat) :=
  splitWsAux l []

/-- `str::parse::<u16>()` on a byte buffer: optional leading `+`, then a
non-empty run of decimal digits, value below `2^16`. -/
def parseU16 (l : List Nat) : Option Nat :=
  let l2 := if l.headD 0 = 43 then l.tail else l
  if l2.isEmpty then none
  else if l2.all (fun b => decide (48 ≤ b ∧ b ≤ 57)) then
    let v := l2.foldl (fun a b => 10 * a + (b - 48)) 0
    if v < 65536 then some v else none
  else none

/-- `str::parse::<usize>()` on a byte buffer (modelled on `Nat`, without
the `usize::MAX` bound). -/
def parseUsize (l : List Nat) : Option Nat :=
  let l2 := if l.headD 0 = 43 then l.tail else l
  if l2.isEmpty then none
  else if l2.all (fun b => decide (48 ≤ b ∧ b ≤ 57)) then
    some (l2.foldl (fun a b => 10 * a + (b - 48)) 0)
  else none

/-- `str::split_once(':')` on a byte buffer. -/
def splitOnceColon (l : List Nat) : Option (List Nat × List Nat) :=
  match l.findIdx? (fun b => b == 58) with
  | some j => some (l.take j, l.drop (j + 1))
  | none => none

/-- `HashMap::insert` on an association list: later writes to the same key
overwrite earlier ones. -/
def insertHeader (hs : List (List Nat × List Nat)) (k v : List Nat) :
    List (List Nat × List Nat) :=
  if hs.any (fun p => p.1 == k) then hs.map (fun p => if p.1 == k then (k, v) else p)
  else hs ++ [(k, v)]

/-- `HashMap::get` on the association list. -/
def headerLookup (hs : List (List Nat × List Nat)) (k : List Nat) : Option (List Nat) :=
  (hs.find? (fun p => p.1 == k)).map Prod.snd

/-- The header-line loop of `Response::from_raw_bytes`: stop at the first
empty line, split each line at the first `:`, lower-case and trim the key,
trim the value, skip lines without a colon. -/
def parseHeaderLines (ls : List (List Nat)) : List (List Nat × List Nat) :=
  (ls.takeWhile (fun l => !l.isEmpty)).foldl
    (fun hs line =>
      match splitOnceColon line with
      | some (k, v) => insertHeader hs (lowerBytes (trimBytes k)) (trimBytes v)
      | none => hs) []

/-- `str::contains` for a byte pattern (contiguous substring). -/
def bytesContains (l pat : List Nat) : Bool :=
  (List.range (l.length + 1)).any (fun i => (l.drop i).take pat.length == pat)

/-- `ChunkedParser::is_chunked` from `src/chunked.rs`: the parsed
(lower-cased-key) header map declares a `transfer-encoding` whose
lower-cased value contains `chunked`. -/
def isChunkedHeaders (hs : List (List Nat × List Nat)) : Bool :=
  match headerLookup hs (strBytes "transfer-encoding") with
  | some v => bytesContains (lowerBytes v) (strBytes "chunked")
  | none => false

/-- Compression formats, from `src/decompression.rs`. -/
inductive Compression : Type where
  | Gzip
  | Deflate
  | Brotli
  | None
  deriving DecidableEq

/-- `Compression::from_content_encoding`: case-insensitive exact match,
anything unknown is `None`. -/
def Compression.fromContentEncoding (v : List Nat) : Compression :=
  let lv := lowerBytes v
  if lv = strBytes "gzip" then .Gzip
  else if lv = strBytes "deflate" then .Deflate
  else if lv = strBytes "br" then .Brotli
  else .None

/-- `decompress` from `src/decompression.rs`.  The external decoders
(`flate2`'s `GzDecoder`/`DeflateDecoder`, `brotli::BrotliDecompress`) are
oracles `gz`/`df`/`br` returning `none` on decode failure; the Rust code
wraps any such failure as `Error::Decompression` (the underlying cause's
message, appended after the prefix shown here, is elided). -/
def decompress (gz df br : List Nat → Option (List Nat)) (data : List Nat) :
    Compression → Except Error (List Nat)
  | .Gzip =>
    match gz data with
    | some d => .ok d
    | none => .error (.Decompression "gzip解压缩失败")
  | .Deflate =>
    match df data with
    | some d => .ok d
    | none => .error (.Decompression "deflate解压缩失败")
  | .Brotli =>
    match br data with
    | some d => .ok d
    | none => .error (.Decompression "brotli解压缩失败")
  | .None => .ok data

/-- The `Response` struct from `src/response.rs` (byte-level fields). -/
structure Response : Type where
  version : List Nat
  status_code : Nat
  status_message : List Nat
  headers : List (List Nat × List Nat)
  body : List Nat
  deriving DecidableEq

/-- `" ".join` of tokens (`status_parts[2..].join(" ")`). -/
def joinSpaces (ls : List (List Nat)) : List Nat :=
  List.intercalate [32] ls

/-- `Response::from_raw_bytes` from `src/response.rs`: split at the first
`\r\n\r\n`; parse the status line (version, integer `u16` status code,
re-joined message); parse header lines (lower-cased keys, last write
wins); decompress the body according to `content-encoding`. -/
def fromRawBytes (gz df br : List Nat → Option (List Nat)) (raw : List Nat) :
    Except Error Response :=
  match findHeaderEnd raw with
  | none => .error (.Response "Invalid HTTP response format")
  | some he =>
    let bodyBytes := raw.drop (he + 4)
    match linesOf (raw.take he) with
    | [] => .error (.Response "Empty response")
    | statusLine :: restLines =>
      let parts := splitWs statusLine
      if parts.length < 3 then .error (.Response "Invalid status line")
      else
        match parseU16 (parts.getD 1 []) with
        | none => .error (.Response "Invalid status code")
        | some code =>
          let headers := parseHeaderLines restLines
          let ce := (headerLookup headers (strBytes "content-encoding")).getD []
          match decompress gz df br bodyBytes (Compression.fromContentEncoding ce) with
          | .error e => .error e
          | .ok pb => .ok ⟨parts.getD 0 [], code, joinSpaces (parts.drop 2), headers, pb⟩

/-- The parsed header map of a raw response (empty if no `\r\n\r\n`). -/
def rawHeaders (raw : List Nat) : List (List Nat × List Nat) :=
  match findHeaderEnd raw with
  | none => []
  | some he => parseHeaderLines ((linesOf (raw.take he)).drop 1)

/-- The bytes after the `\r\n\r\n` boundary (empty if no boundary). -/
def rawBody (raw : List Nat) : List Nat :=
  match findHeaderEnd raw with
  | none => []
  | some he => raw.drop (he + 4)

/-- The declared `Content-Length` of a raw response, if present and
numeric. -/
def rawContentLength (raw : List Nat) : Option Nat :=
  (headerLookup (rawHeaders raw) (strBytes "content-length")).bind parseUsize

/-! ### Connection layer (`src/connection/connection.rs`) -/

/-- The read loop of `AsyncHttpConnection::send_http_request` /
`send_https_request`: successive transport reads are supplied as a list of
byte chunks; an empty chunk is `read` returning `Ok(0)` (EOF), and the end
of the list is likewise EOF.  The loop appends every chunk until EOF. -/
def accumReads (reads : List (List Nat)) : List Nat :=
  (reads.takeWhile (fun c => !c.isEmpty)).flatten

/-- `AsyncHttpConnection::send_http_request` from
`src/connection/connection.rs` (the HTTPS variant has the same body over
the TLS stream): write the request, then read chunks until EOF —
inspecting neither `Content-Length` nor `Transfer-Encoding` — and convert
the bytes with `String::from_utf8`, mapping failure to `Error::Other`
(whose message carries the `FromUtf8Error` display, elided here after the
prefix).  The successful `String` is represented by its bytes. -/
def sendHttpRequest (reads : List (List Nat)) : Except Error (List Nat) :=
  let resp := accumReads reads
  if utf8Valid resp then .ok resp else .error (.Other "Invalid UTF-8")

/-! ### URL resolution (`src/utils.rs`)

`parse_host_port` delegates URL parsing to the external `url` crate (the
WHATWG URL Standard parser).  `UrlRec`/`urlParse` below model that crate's
`Url::parse` together with the accessors the Rust code calls — `scheme()`
(lower-cased), `host_str()` (lower-cased, `None` for cannot-be-a-base
URLs such as `mailto:`), `port()` (`None` when absent or equal to the
scheme's default), and `path()` (which per the crate's documentation does
NOT include the query string) — restricted to the fragments exercised
here: no percent or IDNA normalisation, no dot-segment removal, no IPv6
bracket syntax, and a minimal treatment of non-special schemes. -/

/-- ASCII letter. -/
def isAlphaCh (c : Char) : Bool :=
  decide (('a' ≤ c ∧ c ≤ 'z') ∨ ('A' ≤ c ∧ c ≤ 'Z'))

/-- ASCII digit. -/
def isDigitCh (c : Char) : Bool :=
  decide ('0' ≤ c ∧ c ≤ '9')

/-- Characters allowed in a scheme after the first letter. -/
def isSchemeCh (c : Char) : Bool :=
  isAlphaCh c || isDigitCh c || c == '+' || c == '-' || c == '.'

/-- ASCII lower-casing of a character. -/
def lowerChar (c : Char) : Char :=
  if 'A' ≤ c ∧ c ≤ 'Z' then Char.ofNat (c.toNat + 32) else c

/-- Model of a parsed `url::Url` (the components the Rust code reads). -/
structure UrlRec : Type where
  scheme : String
  host : Option String
  port : Option Nat
  path : String
  query : Option String
  deriving DecidableEq

/-- WHATWG special schemes. -/
def specialScheme (s : String) : Bool :=
  s == "http" || s == "https" || s == "ws" || s == "wss" || s == "ftp" || s == "file"

/-- Default port of a special scheme (`Url::port` returns `None` for it). -/
def defaultPort (s : String) : Option Nat :=
  if s == "http" || s == "ws" then some 80
  else if s == "https" || s == "wss" then some 443
  else if s == "ftp" then some 21
  else none

/-- Drop the userinfo before the last `@` of an authority. -/
def hostPortOf (auth : List Char) : List Char :=
  if auth.contains '@' then (auth.reverse.takeWhile (fun c => c != '@')).reverse else auth

/-- Path (up to `?`/`#`) and query (between `?` and `#`) of the part after
the authority. -/
def pathQueryOf (after : List Char) : String × Option String :=
  let p := after.takeWhile (fun c => !(c == '?' || c == '#'))
  let q := match after.dropWhile (fun c => c != '?') with
    | _ :: t => some (String.mk (t.takeWhile (fun c => c != '#')))
    | [] => none
  (String.mk p, q)

/-- Assemble a special-scheme URL record: host lower-cased, empty path
defaulted to `/`, default port suppressed. -/
def mkSpecial (scheme : String) (hostCs : List Char) (portIn : Option Nat)
    (after : List Char) : Option UrlRec :=
  let host := String.mk (hostCs.map lowerChar)
  let pq := pathQueryOf after
  let path := if pq.1 = "" then "/" else pq.1
  let port2 := match portIn with
    | some p => if defaultPort scheme = some p then none else some p
    | none => none
  some ⟨scheme, some host, port2, path, pq.2⟩

/-- Authority parsing for special schemes: the host must be non-empty
(except for `file`), an explicit `:port` must be numeric and below
`2^16`. -/
def parseAuthoritySpecial (scheme : String) (rest2 : List Char) : Option UrlRec :=
  let auth := rest2.takeWhile (fun c => !(c == '/' || c == '?' || c == '#' || c == '\\'))
  let after := rest2.drop auth.length
  let hp := hostPortOf auth
  match hp.findIdx? (fun c => c == ':') with
  | some j =>
    let hostCs := hp.take j
    let portCs := hp.drop (j + 1)
    if hostCs.isEmpty then none
    else if portCs.isEmpty then mkSpecial scheme hostCs none after
    else if portCs.all isDigitCh then
      let p := portCs.foldl (fun a c => 10 * a + (c.toNat - 48)) 0
      if p < 65536 then mkSpecial scheme hostCs (some p) after else none
    else none
  | none =>
    if hp.isEmpty then (if scheme = "file" then mkSpecial scheme [] none after else none)
    else mkSpecial scheme hp none after

/-- Minimal authority parsing for non-special schemes (no default ports,
empty host allowed, empty path kept empty). -/
def parseAuthorityOther (scheme : String) (rest2 : List Char) : Option UrlRec :=
  let auth := rest2.takeWhile (fun c => !(c == '/' || c == '?' || c == '#'))
  let after := rest2.drop auth.length
  let hp := hostPortOf auth
  let pq := pathQueryOf after
  match hp.findIdx? (fun c => c == ':') with
  | some j =>
    let hostCs := hp.take j
    let portCs := hp.drop (j + 1)
    if portCs.isEmpty then
      some ⟨scheme, some (String.mk (hostCs.map lowerChar)), none, pq.1, pq.2⟩
    else if portCs.all isDigitCh then
      let p := portCs.foldl (fun a c => 10 * a + (c.toNat - 48)) 0
      if p < 65536 then
        some ⟨scheme, some (String.mk (hostCs.map lowerChar)), some p, pq.1, pq.2⟩
      else none
    else none
  | none => some ⟨scheme, some (String.mk (hp.map lowerChar)), none, pq.1, pq.2⟩

/-- Model of `url::Url::parse`: a valid scheme before the first `:`;
special schemes parse an authority after skipping slashes; non-special
schemes parse an authority only after `//`, and are otherwise
cannot-be-a-base (no host, the rest is the path). -/
def urlParse (s : String) : Option UrlRec :=
  let cs := s.toList
  match cs.findIdx? (fun c => c == ':') with
  | none => none
  | some i =>
    let schemeCs := cs.take i
    if schemeCs.isEmpty then none
    else if !(isAlphaCh (schemeCs.headD 'a') && schemeCs.all isSchemeCh) then none
    else
      let scheme := String.mk (schemeCs.map lowerChar)
      let rest := cs.drop (i + 1)
      if specialScheme scheme then
        parseAuthoritySpecial scheme (rest.dropWhile (fun c => c == '/' || c == '\\'))
      else if rest.take 2 = ['/', '/'] then
        parseAuthorityOther scheme (rest.drop 2)
      else
        let pq := pathQueryOf rest
        some ⟨scheme, none, none, pq.1, pq.2⟩

/-- The `ParsedUrl` struct from `src/utils.rs` (`port` is a `u16`). -/
structure ParsedUrl : Type where
  hostname : String
  port : Nat
  path : String
  is_https : Bool
  deriving DecidableEq

/-- Outcome of running a Rust function that can also panic. -/
inductive POut (α : Type) : Type where
  | ok (a : α)
  | err (e : Error)
  | panic
  deriving DecidableEq

/-- `parse_host_port` from `src/utils.rs`: delegate to `Url::parse`
(failure becomes `Error::UrlParse` — the crate error's display text after
the `parse_host_port error:` prefix is elided); then
`host_str().unwrap()` (a PANIC when the parsed URL has no host),
`scheme() == "https"`, `port().unwrap_or(443/80)`, and `path()` (query
not included). -/
def parseHostPort (url : String) : POut ParsedUrl :=
  match urlParse url with
  | none => .err (.UrlParse "parse_host_port error:")
  | some u =>
    match u.host with
    | none => .panic
    | some h =>
      let ih := u.scheme == "https"
      .ok ⟨h, u.port.getD (if ih then 443 else 80), u.path, ih⟩

/-! ### Request serialization (`src/client.rs` / `src/request/model.rs`) -/

/-- HTTP methods, from `src/request/types.rs`. -/
inductive Method : Type where
  | GET
  | POST
  | PUT
  | DELETE
  | HEAD
  | OPTIONS
  | PATCH
  | TRACE
  deriving DecidableEq

/-- `Method::as_str`. -/
def Method.asStr : Method → String
  | .GET => "GET"
  | .POST => "POST"
  | .PUT => "PUT"
  | .DELETE => "DELETE"
  | .HEAD => "HEAD"
  | .OPTIONS => "OPTIONS"
  | .PATCH => "PATCH"
  | .TRACE => "TRACE"

/-- HTTP versions, from `src/request/types.rs`. -/
inductive Version : Type where
  | Http1_0
  | Http1_1
  deriving DecidableEq

/-- `Version::as_str`. -/
def Version.asStr : Version → String
  | .Http1_0 => "HTTP/1.0"
  | .Http1_1 => "HTTP/1.1"

/-- `Request::serialize_to_string` from `src/request/model.rs`
(`HttpClient::build_request_string` in `src/client.rs` is line-for-line
the same): request line from the method, the resolved path and the
version; a `Host` header; the request's headers in iteration order
(modelled as the list order); a forced `Connection: close`; and, when a
body is present, a synthesized `Content-Length` equal to `body.len()`
followed by the blank line and `String::from_utf8_lossy(body)` — note the
lossy conversion, whose output bytes are appended, not the raw body. -/
def serializeToString (method : Method) (version : Version)
    (headers : List (List Nat × List Nat)) (body : Option (List Nat))
    (purl : ParsedUrl) : List Nat :=
  strBytes method.asStr ++ [32] ++ strBytes purl.path ++ [32] ++ strBytes version.asStr ++
    [13, 10] ++
  strBytes "Host: " ++ strBytes purl.hostname ++ [13, 10] ++
  (headers.map (fun kv => kv.1 ++ [58, 32] ++ kv.2 ++ [13, 10])).flatten ++
  strBytes "Connection: close" ++ [13, 10] ++
  (match body with
   | some b => strBytes "Content-Length: " ++ strBytes (toString b.length) ++ [13, 10] ++
       [13, 10] ++ utf8Lossy b
   | none => [13, 10])

/-! ### Proxy tunnel (`src/connection/proxy.rs`) -/

/-- The CONNECT request written by `establish_tunnel`. -/
def connectRequestBytes (host : String) (port : Nat) : List Nat :=
  strBytes ("CONNECT " ++ host ++ ":" ++ toString port ++ " HTTP/1.1\r\nHost: " ++ host ++
    ":" ++ toString port ++ "\r\nConnection: keep-alive\r\n\r\n")

/-- The read loop of `establish_tunnel`: read chunks (an empty chunk or
the end of the list is EOF), appending to the accumulated response; stop
as soon as the accumulated bytes contain `\r\n\r\n`; fail with
`Error::Proxy` once more than 8192 bytes were read without a boundary. -/
def tunnelRead : List (List Nat) → List Nat → Nat → Except Error (List Nat)
  | [], acc, _ => .ok acc
  | chunk :: rest, acc, total =>
    if chunk.isEmpty then .ok acc
    else
      let acc2 := acc ++ chunk
      let total2 := total + chunk.length
      if (findHeaderEnd acc2).isSome then .ok acc2
      else if 8192 < total2 then .error (.Proxy "Proxy response too large")
      else tunnelRead rest acc2 total2

/-- `AsyncProxyConnection::establish_tunnel` from
`src/connection/proxy.rs`: write the CONNECT request (the first component
of the result is everything the function writes to the socket — exactly
that request), read the proxy reply up to `\r\n\r\n`, parse the second
whitespace token of its first line as a `u16`, and fail with
`Error::Proxy` (carrying the code) unless it is 200. -/
def establishTunnel (host : String) (port : Nat) (reads : List (List Nat)) :
    List Nat × Except Error Unit :=
  let wr := connectRequestBytes host port
  match tunnelRead reads [] 0 with
  | .error e => (wr, .error e)
  | .ok resp =>
    let statusLine := (linesOf resp).getD 0 []
    let parts := splitWs statusLine
    if parts.length < 2 then (wr, .error (.Proxy "Invalid proxy response"))
    else
      match parseU16 (parts.getD 1 []) with
      | none => (wr, .error (.Proxy "Invalid status code in proxy response"))
      | some code =>
        if code = 200 then (wr, .ok ())
        else (wr, .error (.Proxy ("Proxy connection failed: " ++ toString code)))

/-! ### Helper lemmas for the claim theorems -/

theorem decompress_no_response (gz df br : List Nat → Option (List Nat)) (data : List Nat)
    (c : Compression) : ∀ m, decompress gz df br data c ≠ .error (.Response m) := by
  intro m
  cases c <;> simp only [decompress]
  · cases gz data <;> simp
  · cases df data <;> simp
  · cases br data <;> simp
  · simp

theorem fromRawBytes_eval (gz df br : List Nat → Option (List Nat)) (raw : List Nat)
    (he : Nat) (sl : List Nat) (restL : List (List Nat))
    (hb : findHeaderEnd raw = some he)
    (hl : linesOf (raw.take he) = sl :: restL)
    (hlen : ¬ (splitWs sl).length < 3) :
    fromRawBytes gz df br raw =
      match parseU16 ((splitWs sl).getD 1 []) with
      | none => .error (.Response "Invalid status code")
      | some code =>
        match decompress gz df br (raw.drop (he + 4))
            (Compression.fromContentEncoding
              ((headerLookup (parseHeaderLines restL) (strBytes "content-encoding")).getD [])) with
        | .error e => .error e
        | .ok pb => .ok ⟨(splitWs sl).getD 0 [], code, joinSpaces ((splitWs sl).drop 2),
            parseHeaderLines restL, pb⟩ := by
  unfold fromRawBytes
  rw [hb]
  show (match linesOf (raw.take he) with
    | [] => (Except.error (Error.Response "Empty response") : Except Error Response)
    | statusLine :: restLines =>
      if (splitWs statusLine).length < 3 then Except.error (Error.Response "Invalid status line")
      else
        match parseU16 ((splitWs statusLine).getD 1 []) with
        | none => Except.error (Error.Response "Invalid status code")
        | some code =>
          match decompress gz df br (raw.drop (he + 4))
              (Compression.fromContentEncoding
                ((headerLookup (parseHeaderLines restLines) (strBytes "content-encoding")).getD [])) with
          | Except.error e => Except.error e
          | Except.ok pb => Except.ok ⟨(splitWs statusLine).getD 0 [], code,
              joinSpaces ((splitWs statusLine).drop 2), parseHeaderLines restLines, pb⟩) = _
  rw [hl]
  exact if_neg hlen

theorem findHeaderEnd_cons_ne (a : Nat) (l : List Nat) (ha : ¬ a = 13) (hl : 3 ≤ l.length) :
    findHeaderEnd (a :: l) = (findHeaderEnd l).map (· + 1) := by
  match l, hl with
  | b :: c :: d :: rest, _ =>
    rw [findHeaderEnd, if_neg (fun hc => ha hc.1)]

theorem findHeaderEnd_append (pre suf : List Nat) (h : 13 ∉ pre) :
    findHeaderEnd (pre ++ 13 :: 10 :: 13 :: 10 :: suf) = some pre.length := by
  induction pre with
  | nil => simp [findHeaderEnd]
  | cons a t ih =>
    have ha : ¬ (a = 13) := fun e => h (by simp [e])
    have ht : 13 ∉ t := fun hm => h (List.mem_cons_of_mem a hm)
    rw [List.cons_append]
    rw [findHeaderEnd_cons_ne a _ ha (by simp; omega)]
    rw [ih ht]
    simp

/-! ### Claim theorems -/

/-- C1 (counterexample): a raw response declaring `Content-Length: 10`,
not chunked, whose transport delivers only 5 body bytes before EOF.  The
claim says the reader fails with a `Response` error; the embedded read
loop of `send_http_request` instead succeeds and returns all the bytes —
it never inspects `Content-Length`. -/
theorem c1_counterexample :
    rawContentLength (strBytes "HTTP/1.1 200 OK\r\nContent-Length: 10\r\n\r\nHello") =
      some 10 ∧
    isChunkedHeaders
      (rawHeaders (strBytes "HTTP/1.1 200 OK\r\nContent-Length: 10\r\n\r\nHello")) = false ∧
    (rawBody (strBytes "HTTP/1.1 200 OK\r\nContent-Length: 10\r\n\r\nHello")).length = 5 ∧
    sendHttpRequest [strBytes "HTTP/1.1 200 OK\r\nContent-Length: 10\r\n\r\nHello"] =
      .ok (strBytes "HTTP/1.1 200 OK\r\nContent-Length: 10\r\n\r\nHello") := by
  decide

/-- C1 (amended): the response-reading operation of
`send_http_request` reads until EOF regardless of any declared
`Content-Length`: even when the headers declare `Content-Length: n` and
the transport closes with fewer than `n` body bytes after the boundary,
the read succeeds with exactly the bytes received (no `Response` error,
no stopping at `n`). -/
theorem c1_reader_reads_to_eof (raw : List Nat) (n : Nat)
    (hcl : rawContentLength raw = some n)
    (hnc : isChunkedHeaders (rawHeaders raw) = false)
    (hshort : (rawBody raw).length < n)
    (hv : utf8Valid raw = true)
    (hne : raw ≠ []) :
    sendHttpRequest [raw] = .ok raw := by
  have hF : (!raw.isEmpty) = true := by
    cases raw with
    | nil => exact absurd rfl hne
    | cons a t => rfl
  have hacc : accumReads [raw] = raw := by
    unfold accumReads
    rw [List.takeWhile_cons, if_pos hF]
    simp
  unfold sendHttpRequest
  rw [hacc, if_pos hv]

/-- C1 (witness for the amended claim). -/
theorem c1_witness :
    sendHttpRequest [strBytes "HTTP/1.1 200 OK\r\nContent-Length: 10\r\n\r\nHello"] =
      .ok (strBytes "HTTP/1.1 200 OK\r\nContent-Length: 10\r\n\r\nHello") :=
  c1_reader_reads_to_eof (strBytes "HTTP/1.1 200 OK\r\nContent-Length: 10\r\n\r\nHello") 10
    (by decide) (by decide) (by decide) (by decide) (by decide)

/-- C2 (code bug): for a response declaring `Transfer-Encoding: chunked`,
the body that `Response::from_raw_bytes` hands to the caller is the raw
chunk-framed bytes, not the `ChunkedParser` output: `ChunkedParser::parse`
decodes the same bytes to `Hello`, but nothing on the client's execute
path ever invokes it (it is dead code), so the delivered body keeps the
framing. -/
theorem c2_chunked_body_not_decoded :
    (fromRawBytes (fun _ => none) (fun _ => none) (fun _ => none)
        (strBytes "HTTP/1.1 200 OK\r\nTransfer-Encoding: chunked\r\n\r\n5\r\nHello\r\n0\r\n\r\n")).map
        Response.body = .ok (strBytes "5\r\nHello\r\n0\r\n\r\n") ∧
    isChunkedHeaders (rawHeaders
      (strBytes "HTTP/1.1 200 OK\r\nTransfer-Encoding: chunked\r\n\r\n5\r\nHello\r\n0\r\n\r\n")) =
      true ∧
    chunkedParse (strBytes "5\r\nHello\r\n0\r\n\r\n") = .ok (strBytes "Hello") ∧
    strBytes "5\r\nHello\r\n0\r\n\r\n" ≠ strBytes "Hello" := by
  refine ⟨by decide, by decide, ?_, by decide⟩
  have h := chunkedParse_encodeChunked [(strBytes "Hello", none)] (by decide) (by decide)
  rw [show encodeChunked [(strBytes "Hello", none)] = strBytes "5\r\nHello\r\n0\r\n\r\n" from
    by decide] at h
  rw [h]
  decide

/-- C3 (counterexample): on `http://example.com/path?q=v` the resolved
path is `/path` — `Url::path()` does not include the query string, and
`parse_host_port` does not append it — not the claimed `/path?q=v`. -/
theorem c3_counterexample :
    parseHostPort "http://example.com/path?q=v" = .ok ⟨"example.com", 80, "/path", false⟩ ∧
    ("/path" : String) ≠ "/path?q=v" := by
  decide

/-- C3 (amended): `parse_host_port` on `http://example.com/path?q=v`
yields hostname `example.com`, port 80, not HTTPS, and path `/path` — the
query string is parsed by the URL library but dropped from the path; on
`https://example.com` it yields port 443, HTTPS, path `/`. -/
theorem c3_url_examples :
    parseHostPort "http://example.com/path?q=v" = .ok ⟨"example.com", 80, "/path", false⟩ ∧
    parseHostPort "https://example.com" = .ok ⟨"example.com", 443, "/", true⟩ ∧
    urlParse "http://example.com/path?q=v" =
      some ⟨"http", some "example.com", none, "/path", some "q=v"⟩ := by
  decide

/-- C4 (counterexample): `parse_host_port` accepts the non-HTTP scheme
`ftp://example.com`, returning a `ResolvedTarget` (with the HTTP default
port 80) instead of a `UrlParse` error; and on the host-less but
parseable `mailto:user@example.com` it panics (`host_str().unwrap()` on
`None`) instead of returning a `UrlParse` error. -/
theorem c4_counterexample :
    parseHostPort "ftp://example.com" = .ok ⟨"example.com", 80, "/", false⟩ ∧
    parseHostPort "mailto:user@example.com" = .panic := by
  decide

/-- C4 (amended): `parse_host_port` returns `UrlParse` exactly when the
URL library fails to parse the string; any successfully parsed URL with a
host — whatever its scheme — yields a `ResolvedTarget` (HTTPS-ness is
just `scheme == "https"`); a successfully parsed URL without a host makes
it panic. -/
theorem c4_amended : ∀ s : String,
    (urlParse s = none → parseHostPort s = .err (.UrlParse "parse_host_port error:")) ∧
    (∀ u, urlParse s = some u → u.host = none → parseHostPort s = .panic) ∧
    (∀ u hstr, urlParse s = some u → u.host = some hstr →
      ∃ p, parseHostPort s = .ok p ∧ p.hostname = hstr ∧ p.is_https = (u.scheme == "https")) := by
  intro s
  refine ⟨?_, ?_, ?_⟩
  · intro h
    simp only [parseHostPort, h]
  · intro u hu hh
    simp only [parseHostPort, hu, hh]
  · intro u hstr hu hh
    simp only [parseHostPort, hu, hh]
    exact ⟨_, rfl, rfl, rfl⟩

/-- C4 (witness for the amended claim). -/
theorem c4_witness :
    ∃ p, parseHostPort "ftp://example.com" = .ok p ∧ p.hostname = "example.com" ∧
      p.is_https = (("ftp" : String) == "https") :=
  (c4_amended "ftp://example.com").2.2 ⟨"ftp", some "example.com", none, "/", none⟩
    "example.com" (by decide) (by decide)

/-- C5 (confirmed): chunked round-trip — decoding the chunk-framed
encoding of any partition of a body into non-empty chunks (size lines
optionally carrying a `;`-extension free of CR bytes) yields exactly the
body; in particular the bare terminal framing `0\r\n\r\n` decodes to the
empty byte sequence. -/
theorem c5_chunked_roundtrip :
    (∀ chunks : List (List Nat × Option (List Nat)),
      (∀ p ∈ chunks, p.1 ≠ []) →
      (∀ p ∈ chunks, 13 ∉ p.2.getD []) →
      chunkedParse (encodeChunked chunks) = .ok (chunks.map Prod.fst).flatten) ∧
    chunkedParse (strBytes "0\r\n\r\n") = .ok [] := by
  refine ⟨chunkedParse_encodeChunked, ?_⟩
  have h := chunkedParse_encodeChunked [] (by simp) (by simp)
  rw [show encodeChunked [] = strBytes "0\r\n\r\n" from by decide] at h
  simpa using h

/-- C5 (witness): the two-chunk stream with an extension on the second
size line decodes to `Hello World!`. -/
theorem c5_witness :
    chunkedParse (strBytes "6\r\nHello \r\n6;ext=val\r\nWorld!\r\n0\r\n\r\n") =
      .ok (strBytes "Hello World!") := by
  have h := c5_chunked_roundtrip.1
    [(strBytes "Hello ", none), (strBytes "World!", some (strBytes "ext=val"))]
    (by decide) (by decide)
  rw [show encodeChunked
      [(strBytes "Hello ", none), (strBytes "World!", some (strBytes "ext=val"))] =
      strBytes "6\r\nHello \r\n6;ext=val\r\nWorld!\r\n0\r\n\r\n" from by decide] at h
  rw [h]
  decide

/-- C6 (counterexample): on `"6\r\nHello\r\n0\r\n\r\n"` the parser does
fail with a `Response` error, but its message is `Invalid chunk size: `
(the declared size 6 swallows `Hello\r` as payload, leaving an empty size
line), not the claimed `Incomplete chunk data` message. -/
theorem c6_counterexample :
    chunkedParse (strBytes "6\r\nHello\r\n0\r\n\r\n") =
      .error (.Response "Invalid chunk size: ") ∧
    Error.Response "Invalid chunk size: " ≠
      Error.Response "Incomplete chunk data: expected 8 bytes, got 12" := by
  constructor
  · rw [chunkedParse_step (strBytes "6\r\nHello\r\n0\r\n\r\n") 1 5 (by decide) (by decide)
      (by decide)]
    rw [chunkedParse_bad_size _ 0 (by decide) (by decide)]
    decide
  · decide

/-- C6 (amended): `ChunkedParser::parse` on the exact input
`"6\r\nHello\r\n0\r\n\r\n"` fails with a `Response` error — so no decoded
output is returned — but the error is `Invalid chunk size: ` (for the
empty size line left after the over-declared chunk), not
`Incomplete chunk data`. -/
theorem c6_amended :
    chunkedParse (strBytes "6\r\nHello\r\n0\r\n\r\n") =
      .error (.Response "Invalid chunk size: ") ∧
    (chunkedParse (strBytes "6\r\nHello\r\n0\r\n\r\n")).isOk = false := by
  have h : chunkedParse (strBytes "6\r\nHello\r\n0\r\n\r\n") =
      .error (.Response "Invalid chunk size: ") := by
    rw [chunkedParse_step (strBytes "6\r\nHello\r\n0\r\n\r\n") 1 5 (by decide) (by decide)
      (by decide)]
    rw [chunkedParse_bad_size _ 0 (by decide) (by decide)]
    decide
  exact ⟨h, by rw [h]; rfl⟩

/-- C7 (counterexample): serializing a request whose body is the single
non-UTF-8 byte `0xFF`.  The synthesized `Content-Length: 1` matches the
body's byte length, but the serialized request does not end with the body
byte: `from_utf8_lossy` replaced `0xFF` with U+FFFD, so the last byte is
`0xBD` (189), not `0xFF` (255). -/
theorem c7_counterexample :
    bytesContains
      (serializeToString .POST .Http1_1 [] (some [255]) ⟨"example.com", 80, "/", false⟩)
      (strBytes "Content-Length: 1\r\n") = true ∧
    (serializeToString .POST .Http1_1 [] (some [255])
      ⟨"example.com", 80, "/", false⟩).getLast? = some 189 ∧
    (serializeToString .POST .Http1_1 [] (some [255])
      ⟨"example.com", 80, "/", false⟩).getLast? ≠ some 255 := by
  decide

/-- C7 (amended): for every request with a body, the serialized request
ends with `Content-Length: {body length in bytes}` followed by the blank
line and `from_utf8_lossy(body)`; when the body is valid UTF-8 the
trailing bytes are exactly the body's bytes (for non-UTF-8 bodies the
lossy conversion substitutes U+FFFD). -/
theorem c7_amended (m : Method) (v : Version) (hs : List (List Nat × List Nat))
    (purl : ParsedUrl) (b : List Nat) :
    (strBytes "Content-Length: " ++ strBytes (toString b.length) ++ [13, 10, 13, 10] ++
      utf8Lossy b) <:+ serializeToString m v hs (some b) purl ∧
    (utf8Valid b = true →
      (strBytes "Content-Length: " ++ strBytes (toString b.length) ++ [13, 10, 13, 10] ++ b)
        <:+ serializeToString m v hs (some b) purl) := by
  have hS : serializeToString m v hs (some b) purl =
      (strBytes m.asStr ++ [32] ++ strBytes purl.path ++ [32] ++ strBytes v.asStr ++ [13, 10] ++
        strBytes "Host: " ++ strBytes purl.hostname ++ [13, 10] ++
        (hs.map (fun kv => kv.1 ++ [58, 32] ++ kv.2 ++ [13, 10])).flatten ++
        strBytes "Connection: close" ++ [13, 10]) ++
      (strBytes "Content-Length: " ++ strBytes (toString b.length) ++ [13, 10, 13, 10] ++
        utf8Lossy b) := by
    simp [serializeToString, List.append_assoc]
  constructor
  · rw [hS]
    exact List.suffix_append _ _
  · intro hv
    rw [hS, utf8Lossy_of_valid b hv]
    exact List.suffix_append _ _

/-- C7 (witness for the amended claim, with the valid-UTF-8 body `hi`). -/
theorem c7_witness :
    (strBytes "Content-Length: " ++ strBytes (toString (strBytes "hi").length) ++
      [13, 10, 13, 10] ++ strBytes "hi") <:+
      serializeToString .POST .Http1_1 [] (some (strBytes "hi"))
        ⟨"example.com", 80, "/", false⟩ :=
  (c7_amended .POST .Http1_1 [] ⟨"example.com", 80, "/", false⟩ (strBytes "hi")).2 (by decide)

/-- C8 (counterexample): a response whose status token `200` parses, but
which declares `Content-Encoding: br` over a body that is not valid
brotli data (the brotli oracle returns `none` on it, mirroring
`decompression.rs`'s own test that invalid brotli input fails):
`from_raw_bytes` returns a `Decompression` error, so "every token that
parses as an integer yields a successful parse" is false as stated. -/
theorem c8_counterexample :
    fromRawBytes (fun _ => none) (fun _ => none) (fun _ => none)
      (strBytes
        "HTTP/1.1 200 OK\r\nContent-Encoding: br\r\n\r\nThis is not valid brotli compressed data!") =
      .error (.Decompression "brotli解压缩失败") ∧
    parseU16 (strBytes "200") = some 200 := by
  decide

/-- C8 (amended): for every raw response with a `\r\n\r\n` boundary whose
status line has at least three whitespace tokens, `from_raw_bytes` fails
with a `Response`-variant error if and only if the second token does not
parse as a `u16`; and for every token parsing as `n` — no range
restriction — parsing succeeds with `status_code = n`, provided the
declared content-encoding requires no decompression (gzip/deflate/brotli
decompression, when declared, can still fail, but only with a
`Decompression` error). -/
theorem c8_amended (gz df br : List Nat → Option (List Nat)) (raw : List Nat)
    (he : Nat) (sl : List Nat) (restL : List (List Nat))
    (hb : findHeaderEnd raw = some he)
    (hl : linesOf (raw.take he) = sl :: restL)
    (h3 : 3 ≤ (splitWs sl).length) :
    ((∃ m, fromRawBytes gz df br raw = .error (.Response m)) ↔
      parseU16 ((splitWs sl).getD 1 []) = none) ∧
    (∀ n, parseU16 ((splitWs sl).getD 1 []) = some n →
      Compression.fromContentEncoding
        ((headerLookup (parseHeaderLines restL) (strBytes "content-encoding")).getD []) =
        Compression.None →
      ∃ r, fromRawBytes gz df br raw = .ok r ∧ r.status_code = n) := by
  have heval := fromRawBytes_eval gz df br raw he sl restL hb hl (by omega)
  constructor
  · constructor
    · rintro ⟨m, hm⟩
      by_contra hc
      obtain ⟨code, hcode⟩ : ∃ c, parseU16 ((splitWs sl).getD 1 []) = some c := by
        cases hx : parseU16 ((splitWs sl).getD 1 []) with
        | none => exact absurd hx hc
        | some c => exact ⟨c, rfl⟩
      rw [hcode] at heval
      rw [heval] at hm
      cases hdc : decompress gz df br (raw.drop (he + 4))
          (Compression.fromContentEncoding
            ((headerLookup (parseHeaderLines restL) (strBytes "content-encoding")).getD []))
          with
      | error e2 =>
        rw [hdc] at hm
        injection hm with he2
        exact decompress_no_response gz df br _ _ m (by rw [← he2]; exact hdc)
      | ok pb =>
        rw [hdc] at hm
        exact Except.noConfusion hm
    · intro hnone
      rw [hnone] at heval
      exact ⟨"Invalid status code", heval⟩
  · intro n hn hcomp
    rw [hn] at heval
    rw [hcomp] at heval
    exact ⟨⟨(splitWs sl).getD 0 [], n, joinSpaces ((splitWs sl).drop 2),
      parseHeaderLines restL, raw.drop (he + 4)⟩, heval, rfl⟩

/-- C8 (witness for the amended claim): a plain 404 response parses
successfully with `status_code = 404`. -/
theorem c8_witness :
    ∃ r, fromRawBytes (fun _ => none) (fun _ => none) (fun _ => none)
      (strBytes "HTTP/1.1 404 Not Found\r\nContent-Type: text/html\r\n\r\nNot Found") =
        .ok r ∧ r.status_code = 404 :=
  (c8_amended (fun _ => none) (fun _ => none) (fun _ => none)
    (strBytes "HTTP/1.1 404 Not Found\r\nContent-Type: text/html\r\n\r\nNot Found")
    47 (strBytes "HTTP/1.1 404 Not Found") [strBytes "Content-Type: text/html"]
    (by decide) (by decide) (by decide)).2 404 (by decide) (by decide)

/-- C9 (confirmed): when the proxy's CONNECT reply (delivered in one
read, containing the header boundary) has a second status-line token that
parses to a code other than 200, `establish_tunnel` fails with a `Proxy`
error carrying that code, and the bytes written to the socket are exactly
the CONNECT request — nothing more. -/
theorem c9_connect_non200 (host : String) (port : Nat) (reply : List Nat) (n : Nat)
    (hne : reply ≠ [])
    (hbd : (findHeaderEnd reply).isSome = true)
    (hp2 : 2 ≤ (splitWs ((linesOf reply).getD 0 [])).length)
    (hcode : parseU16 ((splitWs ((linesOf reply).getD 0 [])).getD 1 []) = some n)
    (h200 : n ≠ 200) :
    establishTunnel host port [reply] =
      (connectRequestBytes host port,
        .error (.Proxy ("Proxy connection failed: " ++ toString n))) := by
  have hF : ¬ (reply.isEmpty = true) := by
    cases reply with
    | nil => exact absurd rfl hne
    | cons a t => simp
  have hread : tunnelRead [reply] [] 0 = .ok reply := by
    rw [tunnelRead, if_neg hF]
    simp only [List.nil_append]
    rw [if_pos hbd]
  have hlt : ¬ (splitWs ((linesOf reply).getD 0 [])).length < 2 := by omega
  simp only [establishTunnel, hread, hlt, if_false, hcode, if_neg h200]

/-- C9 (witness): the literal 407 CONNECT reply. -/
theorem c9_witness :
    establishTunnel "example.com" 8080
      [strBytes "HTTP/1.1 407 Proxy Authentication Required\r\n\r\n"] =
      (connectRequestBytes "example.com" 8080,
        .error (.Proxy ("Proxy connection failed: " ++ toString 407))) :=
  c9_connect_non200 "example.com" 8080
    (strBytes "HTTP/1.1 407 Proxy Authentication Required\r\n\r\n") 407
    (by decide) (by decide) (by decide) (by decide) (by decide)

/-- C10 (confirmed): when the accumulated raw response bytes are not
valid UTF-8, the connection layer's read path returns an `Other` error
(the `String::from_utf8` failure), so those bytes never reach
`from_raw_bytes` through the client's send path — even though
`from_raw_bytes` itself accepts an arbitrary (even non-UTF-8) body after
the boundary, as the second conjunct shows. -/
theorem c10_non_utf8_other_error :
    (∀ reads : List (List Nat), utf8Valid (accumReads reads) = false →
      ∃ m, sendHttpRequest reads = .error (.Other m)) ∧
    (∀ (body : List Nat) (gz df br : List Nat → Option (List Nat)),
      fromRawBytes gz df br (strBytes "HTTP/1.1 200 OK\r\n\r\n" ++ body) =
        .ok ⟨strBytes "HTTP/1.1", 200, strBytes "OK", [], body⟩) := by
  constructor
  · intro reads hv
    unfold sendHttpRequest
    rw [if_neg (by simp [hv])]
    exact ⟨_, rfl⟩
  · intro body gz df br
    have hsplit : strBytes "HTTP/1.1 200 OK\r\n\r\n" ++ body =
        strBytes "HTTP/1.1 200 OK" ++ 13 :: 10 :: 13 :: 10 :: body := by
      rw [show strBytes "HTTP/1.1 200 OK\r\n\r\n" =
        strBytes "HTTP/1.1 200 OK" ++ [13, 10, 13, 10] from by decide]
      simp
    rw [hsplit]
    have hb : findHeaderEnd (strBytes "HTTP/1.1 200 OK" ++ 13 :: 10 :: 13 :: 10 :: body) =
        some 15 := by
      have h0 := findHeaderEnd_append (strBytes "HTTP/1.1 200 OK") body (by decide)
      rw [show (strBytes "HTTP/1.1 200 OK").length = 15 from by decide] at h0
      exact h0
    have htk : (strBytes "HTTP/1.1 200 OK" ++ 13 :: 10 :: 13 :: 10 :: body).take 15 =
        strBytes "HTTP/1.1 200 OK" := by
      rw [show (15 : Nat) = (strBytes "HTTP/1.1 200 OK").length from by decide]
      exact List.take_left _ _
    have hdp : (strBytes "HTTP/1.1 200 OK" ++ 13 :: 10 :: 13 :: 10 :: body).drop (15 + 4) =
        body := by
      rw [show strBytes "HTTP/1.1 200 OK" ++ 13 :: 10 :: 13 :: 10 :: body =
        (strBytes "HTTP/1.1 200 OK" ++ [13, 10, 13, 10]) ++ body from by simp]
      rw [show (15 + 4 : Nat) = (strBytes "HTTP/1.1 200 OK" ++ [13, 10, 13, 10]).length from
        by decide]
      exact List.drop_left _ _
    have hlines : linesOf ((strBytes "HTTP/1.1 200 OK" ++ 13 :: 10 :: 13 :: 10 :: body).take 15) =
        [strBytes "HTTP/1.1 200 OK"] := by
      rw [htk]
      decide
    rw [fromRawBytes_eval gz df br _ 15 (strBytes "HTTP/1.1 200 OK") [] hb hlines (by decide)]
    rw [hdp]
    rfl

/-- C10 (witness): a single non-UTF-8 read errors with `Other`; a binary
(non-UTF-8) body is accepted by the parser itself. -/
theorem c10_witness :
    (∃ m, sendHttpRequest [[255]] = .error (.Other m)) ∧
    fromRawBytes (fun _ => none) (fun _ => none) (fun _ => none)
      (strBytes "HTTP/1.1 200 OK\r\n\r\n" ++ [137, 80]) =
      .ok ⟨strBytes "HTTP/1.1", 200, strBytes "OK", [], [137, 80]⟩ :=
  ⟨c10_non_utf8_other_error.1 [[255]] (by decide),
    c10_non_utf8_other_error.2 [137, 80] (fun _ => none) (fun _ => none) (fun _ => none)⟩
